import Mathlib

/-
Verification development for the network-identity subsystem of lxc-compose.

The definitions below are a shallow embedding of the Python sources:
  - srv/lxc-compose/cli/hosts_manager.py   (IPAllocator, HostsManager)
  - srv/lxc-compose/cli/port_manager.py    (PortManager)
  - cli/lxc_compose.py                     (LXCCompose networking helpers)

File contents are modelled as lists of characters, lines as lists of
characters, and the small JSON registries as Lean structures.  Python
string primitives (str.strip, str.split, str.startswith, "x in s",
content.split of a newline) are modelled character by character so that
byte-level statements about file contents are meaningful.
-/

namespace LxcCompose

/-- Line of a text file, without its terminating newline. -/
abbrev Line := List Char

/-- Container name, as the list of its characters. -/
abbrev Name := List Char

/-- Model of Python str.isspace for a single character: the whitespace
characters recognised by str.strip and str.split. -/
def pyIsSpace (c : Char) : Bool :=
  c = ' ' || c = '\t' || c = '\n' || c = '\x0b' || c = '\x0c' || c = '\r'

/-- Model of Python str.strip(): drop leading and trailing whitespace. -/
def pyStrip (l : List Char) : List Char :=
  ((l.dropWhile pyIsSpace).reverse.dropWhile pyIsSpace).reverse

/-- A line is blank when line.strip() is empty, i.e. all characters are
whitespace. -/
def isBlankL (l : Line) : Bool := l.all pyIsSpace

/-- Helper for pyTokens: split a character list on runs of whitespace. -/
def pyTokensAux : List Char → List Char → List (List Char)
  | [], [] => []
  | [], acc => [acc.reverse]
  | c :: cs, acc =>
    if pyIsSpace c then
      if acc.isEmpty then pyTokensAux cs [] else acc.reverse :: pyTokensAux cs []
    else pyTokensAux cs (c :: acc)

/-- Model of Python str.split() with no argument: whitespace-delimited
tokens, empty tokens discarded. -/
def pyTokens (l : Line) : List (List Char) := pyTokensAux l []

/-- Model of Python s.startswith(pre). -/
def listStarts : List Char → List Char → Bool
  | _, [] => true
  | [], _ :: _ => false
  | c :: cs, p :: ps => c = p && listStarts cs ps

/-- Model of content.split of a newline character in Python: split a file
into its lines.  The empty file yields one empty line, as in Python. -/
def splitNl : List Char → List (List Char)
  | [] => [[]]
  | c :: cs =>
    if c = '\n' then [] :: splitNl cs
    else
      match splitNl cs with
      | [] => [[c]]
      | l :: ls => (c :: l) :: ls

/-- Inverse of splitNl: join lines with newline characters, the model of
a join of a newline over the lines. -/
def joinNl : List (List Char) → List Char
  | [] => []
  | [l] => l
  | l :: ls => l ++ '\n' :: joinNl ls

/-
IPAllocator, from srv/lxc-compose/cli/hosts_manager.py.

The JSON allocations file holds the subnet, the next candidate suffix,
the reserved suffixes and the name-to-suffix allocation map; the map is
modelled as an association list in insertion order, matching a Python
dict.
-/

/-- Error raised by allocate_ip when the scan overruns the subnet
(ValueError, the AllocationExhausted of the spec). -/
inductive AllocErr where
  | exhausted
deriving DecidableEq, Repr

/-- State of the ip-allocations.json registry. -/
structure AllocState where
  next_ip : Nat
  reserved : List Nat
  allocations : List (Name × Nat)
deriving DecidableEq, Repr

/-- Lookup in the allocation map, the model of a Python dict lookup. -/
def alookup : List (Name × Nat) → Name → Option Nat
  | [], _ => none
  | (k, v) :: rest, n => if k = n then some v else alookup rest n

/-- Initial registry content written by ensure_allocations_file: next_ip
is start_from and reserved is list(range(1, start_from)). -/
def initAlloc (startFrom : Nat) : AllocState :=
  { next_ip := startFrom
    reserved := List.range' 1 (startFrom - 1)
    allocations := [] }

/-- Structural helper for the while loop of allocate_ip.  The fuel
argument carries 254 - n; the loop only recurses when n + 1 is at most
254, so the fuel is positive at every recursive call and the
out-of-fuel branch is unreachable (the invariant fuel = 254 - n is
established by scanIP below). -/
def scanIPAux (reserved vals : List Nat) : Nat → Nat → Except AllocErr Nat
  | fuel, n =>
    if n ∈ reserved ∨ n ∈ vals then
      if n + 1 > 254 then Except.error AllocErr.exhausted
      else
        match fuel with
        | 0 => Except.error AllocErr.exhausted
        | f + 1 => scanIPAux reserved vals f (n + 1)
    else Except.ok n

/-- Model of the while loop of allocate_ip: advance past reserved or
already-allocated suffixes; the exhaustion check happens only after an
increment, inside the loop body. -/
def scanIP (reserved vals : List Nat) (n : Nat) : Except AllocErr Nat :=
  scanIPAux reserved vals (254 - n) n

/-- Model of IPAllocator.allocate_ip: return the existing suffix when the
name is already allocated, otherwise scan from next_ip, record the found
suffix and bump next_ip.  The returned value is the suffix of the
address subnet_base.suffix. -/
def allocate_ip (st : AllocState) (name : Name) :
    Except AllocErr (Nat × AllocState) :=
  match alookup st.allocations name with
  | some s => Except.ok (s, st)
  | none =>
    match scanIP st.reserved (st.allocations.map (·.2)) st.next_ip with
    | Except.error e => Except.error e
    | Except.ok f =>
      Except.ok (f,
        { next_ip := f + 1
          reserved := st.reserved
          allocations := st.allocations ++ [(name, f)] })

/-- Model of IPAllocator.release_ip: delete the mapping when present. -/
def release_ip (st : AllocState) (name : Name) : Bool × AllocState :=
  match alookup st.allocations name with
  | some _ =>
    (true, { st with allocations := st.allocations.filter (fun p => ¬ p.1 = name) })
  | none => (false, st)

/-
HostsManager, from srv/lxc-compose/cli/hosts_manager.py.

The managed section of /etc/hosts sits between two sentinel lines; the
file content is a character list, and read_hosts and write_hosts are the
split and reassembly routines of the source.
-/

/-- Sentinel opening the managed section of /etc/hosts. -/
def marker_start : List Char :=
  "# BEGIN LXC Compose managed section - DO NOT EDIT".data

/-- Sentinel closing the managed section of /etc/hosts. -/
def marker_end : List Char := "# END LXC Compose managed section".data

/-- Loop of HostsManager.read_hosts: walk the lines with the in_managed
and after_managed flags, dropping the marker lines and routing every
other line to the before, managed or after bucket. -/
def rhScan (inM afterM : Bool) : List Line → List Line × List Line × List Line
  | [] => ([], [], [])
  | l :: ls =>
    if pyStrip l = marker_start then rhScan true afterM ls
    else if pyStrip l = marker_end then rhScan false true ls
    else
      let r := rhScan inM afterM ls
      if !inM && !afterM then (l :: r.1, r.2.1, r.2.2)
      else if inM then (r.1, l :: r.2.1, r.2.2)
      else (r.1, r.2.1, l :: r.2.2)

/-- Model of HostsManager.read_hosts: split the file content on newlines
and scan for the managed section. -/
def read_hosts (content : List Char) : List Line × List Line × List Line :=
  rhScan false false (splitNl content)

/-- Trailing-blank trim of the before section in write_hosts (the while
pop loop on lines whose strip is empty). -/
def trimTB (ls : List Line) : List Line :=
  (ls.reverse.dropWhile isBlankL).reverse

/-- Model of HostsManager.write_hosts: reassemble before, a blank line,
the markers around the managed lines, a blank line and the after section
(only when it has non-blank content), with a final empty line so that
the file ends in a newline. -/
def write_hosts (before managed after : List Line) : List Char :=
  let c1 := trimTB before
  let c2 :=
    if managed.isEmpty then c1
    else c1 ++ [[]] ++ [marker_start] ++ managed ++ [marker_end]
  let c3 :=
    if (!after.isEmpty) && after.any (fun l => !isBlankL l) then c2 ++ [[]] ++ after
    else c2
  let c4 := if c3 ≠ [] ∧ c3.getLast? ≠ some [] then c3 ++ [[]] else c3
  joinNl c4

/-- Managed entry of the hosts file: ip and container columns. -/
structure HostEntry where
  ip : Name
  container : Name
deriving DecidableEq, Repr

/-- Model of HostsManager.list_entries: parse the managed section into
entries, skipping blank lines, comment lines and lines with fewer than
two whitespace-delimited columns. -/
def hm_list_entries (content : List Char) : List HostEntry :=
  let m := (read_hosts content).2.1
  m.filterMap (fun l =>
    if pyStrip l ≠ [] ∧ l.headD ' ' ≠ '#' then
      match pyTokens l with
      | ipc :: cc :: _ => some { ip := ipc, container := cc }
      | _ => none
    else none)

/-- Combined state of the hosts file, the allocation registry and the
live container runtime (the output of sudo lxc-ls). -/
structure SysState where
  hosts : List Char
  alloc : AllocState
  lxc : List Name
deriving DecidableEq, Repr

/-- Model of HostsManager.check_name_conflict: the name is already a
managed hosts entry, or is an existing LXC container. -/
def check_name_conflict (st : SysState) (name : Name) : Bool :=
  (hm_list_entries st.hosts).any (fun e => decide (e.container = name)) ||
    decide (name ∈ st.lxc)

/-- A nonblank line whose whitespace-delimited tokens include the name;
this is the removal predicate line.strip() and name in line.split() of
add_container and remove_container. -/
def lineHasToken (name : Name) (l : Line) : Bool :=
  decide (pyStrip l ≠ []) && decide (name ∈ pyTokens l)

/-- Managed entry line written by add_container: ip, a tab, the name. -/
def hm_entry (ip name : Name) : Line := ip ++ '\t' :: name

/-- Render of the address subnet_base.suffix with the default subnet
base 10.0.3 of IPAllocator. -/
def renderIP (suffix : Nat) : Name := "10.0.3.".data ++ Nat.toDigits 10 suffix

/-- Split a character list on dots, for the numeric sort key of the
managed section. -/
def splitDot : List Char → List (List Char)
  | [] => [[]]
  | c :: cs =>
    if c = '.' then [] :: splitDot cs
    else
      match splitDot cs with
      | [] => [[c]]
      | l :: ls => (c :: l) :: ls

/-- Decimal value of a digit chunk.  Python int() raises ValueError on a
malformed chunk; the model is only ever applied to numeric dotted quads
and no theorem depends on its value elsewhere. -/
def chunkNat (l : List Char) : Nat :=
  l.foldl (fun a c => a * 10 + (c.toNat - 48)) 0

/-- Sort key of add_container: the dotted-quad integers of the first
column, or a sentinel key for blank lines. -/
def ipKey (l : Line) : List Nat :=
  if pyStrip l = [] then [999, 999, 999, 999]
  else (splitDot ((pyTokens l).headD [])).map chunkNat

/-- Lexicographic order on integer lists, the comparison Python uses on
sort keys. -/
def lexLe : List Nat → List Nat → Bool
  | [], _ => true
  | _ :: _, [] => false
  | x :: xs, y :: ys =>
    if x < y then true else if y < x then false else lexLe xs ys

/-- Stable insertion used to model list.sort(key=...), which is a stable
sort by key. -/
def insSorted (le : Line → Line → Bool) (x : Line) : List Line → List Line
  | [] => [x]
  | y :: ys => if le x y then x :: y :: ys else y :: insSorted le x ys

/-- Stable sort by key (insertion sort), the model of list.sort. -/
def pySort (le : Line → Line → Bool) : List Line → List Line
  | [] => []
  | x :: xs => insSorted le x (pySort le xs)

/-- Order on managed lines by numeric ip key. -/
def sortLe (a b : Line) : Bool := lexLe (ipKey a) (ipKey b)

/-- Errors of add_container: the ClickException on a name conflict, and
the propagated ValueError of the allocator. -/
inductive HMErr where
  | nameConflict
  | allocExhausted
deriving DecidableEq, Repr

/-- Model of HostsManager.add_container: check name conflicts before any
mutation, then allocate an ip when none was given, rewrite the managed
section with the old entry lines for the name dropped and the new entry
appended, and sort by numeric ip. -/
def add_container (st : SysState) (name : Name) (oip : Option Name) :
    Except HMErr Name × SysState :=
  if check_name_conflict st name then (Except.error HMErr.nameConflict, st)
  else
    match (match oip with
      | some ip => Except.ok (ip, st.alloc)
      | none =>
        match allocate_ip st.alloc name with
        | Except.error _ => Except.error HMErr.allocExhausted
        | Except.ok (suf, a2) => Except.ok (renderIP suf, a2)) with
    | Except.error e => (Except.error e, st)
    | Except.ok (ip, alloc2) =>
      let bma := read_hosts st.hosts
      let m1 := bma.2.1.filter (fun l => ! lineHasToken name l)
      let m2 := pySort sortLe (m1 ++ [hm_entry ip name])
      (Except.ok ip,
        { st with hosts := write_hosts bma.1 m2 bma.2.2, alloc := alloc2 })

/-- Model of HostsManager.remove_container: drop the managed lines whose
tokens include the name; when at least one line was dropped, write the
file back and release the ip allocation, else report false and leave
everything unchanged. -/
def remove_container (st : SysState) (name : Name) : Bool × SysState :=
  let bma := read_hosts st.hosts
  let m1 := bma.2.1.filter (fun l => ! lineHasToken name l)
  if m1.length < bma.2.1.length then
    (true,
      { st with
        hosts := write_hosts bma.1 m1 bma.2.2
        alloc := (release_ip st.alloc name).2 })
  else (false, st)

/-- Model of HostsManager.cleanup_orphaned_entries: snapshot the managed
entries and the live container list, then remove every entry whose
container is no longer alive, counting the successful removals. -/
def cleanup_orphaned_entries (st : SysState) : Nat × SysState :=
  let entries := hm_list_entries st.hosts
  entries.foldl
    (fun acc e =>
      if e.container ∈ st.lxc then acc
      else
        let r := remove_container acc.2 e.container
        (if r.1 then acc.1 + 1 else acc.1, r.2))
    (0, st)

/-- Method names defined by class HostsManager in hosts_manager.py, in
source order. -/
def hostsManagerMethods : List String :=
  ["__init__", "_lock_file", "_unlock_file", "read_hosts", "write_hosts",
   "add_container", "check_name_conflict", "remove_container",
   "update_container", "list_entries", "get_container_ip",
   "cleanup_orphaned_entries", "restore_backup"]

/-
PortManager, from srv/lxc-compose/cli/port_manager.py.

The port-forwards.json registry is a list of forward rules; the live
runtime answers lxc list queries with container status and per-interface
addresses.  Names and addresses here are plain strings, since the port
manager never takes them apart beyond a prefix test.
-/

/-- One address of a container interface, from the lxc list json. -/
structure PMAddr where
  family : String
  address : String
deriving DecidableEq, Repr

/-- One live container as reported by lxc list: name, status and the
network section mapping interface names to address lists. -/
structure PMContainer where
  name : String
  status : String
  network : List (String × List PMAddr)
deriving DecidableEq, Repr

/-- Model of Python s.startswith(pre) on strings. -/
def pyStartsWith (s pre : String) : Bool := listStarts s.data pre.data

/-- Interface walk of PortManager.get_container_ip: skip the loopback
interface and return the first inet address on the container subnet. -/
def firstSubnetIP : List (String × List PMAddr) → Option String
  | [] => none
  | (iface, addrs) :: rest =>
    if iface = "lo" then firstSubnetIP rest
    else
      match addrs.find? (fun a =>
        decide (a.family = "inet") && pyStartsWith a.address "10.0.3.") with
      | some a => some a.address
      | none => firstSubnetIP rest

/-- Model of PortManager.get_container_ip: query the runtime for the
container, require it to be Running, and take the first non-loopback
inet address starting with 10.0.3. -/
def pm_get_container_ip (containers : List PMContainer) (name : String) :
    Option String :=
  match containers.find? (fun c => decide (c.name = name)) with
  | none => none
  | some c => if c.status ≠ "Running" then none else firstSubnetIP c.network

/-- One rule of the port-forwards.json registry. -/
structure Forward where
  host_port : Nat
  container_name : String
  container_ip : String
  container_port : Nat
  protocol : String
  description : String
deriving DecidableEq, Repr

/-- External world of the port manager: the live containers and whether
the iptables insertion commands succeed (apply_iptables_rule returns
False when an add command raises CalledProcessError). -/
structure PMEnv where
  containers : List PMContainer
  iptablesOk : Bool

/-- Model of PortManager.add_forward: resolve the container ip (failure
means not found or not running), reject when the host port and protocol
pair is already forwarded, then install the iptables rules and append
the rule to the registry. -/
def add_forward (env : PMEnv) (forwards : List Forward) (hp : Nat)
    (name : String) (cp : Nat) (proto : String) (desc : String) :
    Bool × List Forward :=
  match pm_get_container_ip env.containers name with
  | none => (false, forwards)
  | some cip =>
    if forwards.any (fun f => decide (f.host_port = hp) && decide (f.protocol = proto)) then
      (false, forwards)
    else
      let rule : Forward :=
        { host_port := hp
          container_name := name
          container_ip := cip
          container_port := cp
          protocol := proto
          description := if desc = "" then name ++ ":" ++ toString cp else desc }
      if env.iptablesOk then (true, forwards ++ [rule]) else (false, forwards)

/-- Model of PortManager.remove_forward: locate the rule for the host
port and protocol; the iptables deletions are issued without check, so
on a found rule the registry is always filtered and saved. -/
def remove_forward (forwards : List Forward) (hp : Nat) (proto : String) :
    Bool × List Forward :=
  match forwards.find? (fun f =>
    decide (f.host_port = hp) && decide (f.protocol = proto)) with
  | none => (false, forwards)
  | some _ =>
    (true, forwards.filter (fun f =>
      ! (decide (f.host_port = hp) && decide (f.protocol = proto))))

/-- Registry invariant of the spec: the host port and protocol pair is
unique across the forward rules. -/
def UniquePairs (forwards : List Forward) : Prop :=
  List.Pairwise
    (fun f g => ¬ (f.host_port = g.host_port ∧ f.protocol = g.protocol))
    forwards

/-
LXCCompose networking helpers, from cli/lxc_compose.py (the LXD-based
variant): the shared hosts file, the host machine /etc/hosts managed
section, the iptables FORWARD rules for exposed ports, and the
container-ips.json snapshot used for cleanup.
-/

/-- Sentinel opening the managed section used by update_host_machine_hosts. -/
def ccMarkerStart : List Char := "# BEGIN lxc-compose managed section".data

/-- Sentinel closing that managed section. -/
def ccMarkerEnd : List Char := "# END lxc-compose managed section".data

/-- Hosts line written by this module: ip, a tab, the name. -/
def cc_entry (ip name : Name) : Line := ip ++ '\t' :: name

/-- Model of the Python substring test needle in hay. -/
def listInfix : List Char → List Char → Bool
  | needle, [] => needle.isEmpty
  | needle, c :: cs => listStarts (c :: cs) needle || listInfix needle cs

/-- Record of container-ips.json: the ip and the exposed ports saved by
save_container_ip for later cleanup. -/
structure SavedInfo where
  ip : Name
  ports : List Nat
deriving DecidableEq, Repr

/-- Lookup in the saved-container map. -/
def slookup : List (Name × SavedInfo) → Name → Option SavedInfo
  | [], _ => none
  | (k, v) :: rest, n => if k = n then some v else slookup rest n

/-- Dict update data[name] = info: replace in place or append. -/
def sset : List (Name × SavedInfo) → Name → SavedInfo → List (Name × SavedInfo)
  | [], n, v => [(n, v)]
  | (k, w) :: rest, n, v =>
    if k = n then (k, v) :: rest else (k, w) :: sset rest n v

/-- One iptables FORWARD rule, by the fields this module writes:
an optional destination ip, an optional source ip, an optional
destination port, and the verdict. -/
structure FwRule where
  dest : Option Name
  src : Option Name
  dport : Option Nat
  verdict : String
deriving DecidableEq, Repr

/-- A rule line of iptables -L output mentions the ip exactly when the
rule carries it as destination or source. -/
def FwRule.mentions (r : FwRule) (ip : Name) : Bool :=
  decide (r.dest = some ip) || decide (r.src = some ip)

/-- Rules appended by manage_exposed_ports for one container: allow
established traffic to the ip, allow each exposed port, allow outbound
from the ip, then drop the rest of the inbound traffic to the ip. -/
def exposedRules (ip : Name) (ports : List Nat) : List FwRule :=
  ({ dest := some ip, src := none, dport := none, verdict := "ACCEPT" } : FwRule) ::
    (ports.map (fun p =>
      ({ dest := some ip, src := none, dport := some p, verdict := "ACCEPT" } : FwRule)))
    ++ [{ dest := none, src := some ip, dport := none, verdict := "ACCEPT" },
        { dest := some ip, src := none, dport := none, verdict := "DROP" }]

/-- State touched by setup_container_networking and its cleanup. -/
structure NetState where
  shared : Option (List Char)
  machine : List Char
  firewall : List FwRule
  saved : List (Name × SavedInfo)
deriving Repr

/-- Model of LXCCompose.save_container_ip: store ip and ports for the
name in container-ips.json. -/
def save_container_ip (st : NetState) (name ip : Name) (ports : List Nat) :
    NetState :=
  { st with saved := sset st.saved name { ip := ip, ports := ports } }

/-- Model of LXCCompose.get_saved_container_ip. -/
def get_saved_container_ip (st : NetState) (name : Name) : Option Name :=
  (slookup st.saved name).map (·.ip)

/-- Model of LXCCompose.remove_saved_container_ip: delete the record. -/
def remove_saved_container_ip (st : NetState) (name : Name) : NetState :=
  { st with saved := st.saved.filter (fun p => ¬ p.1 = name) }

/-- Model of update_hosts_file for the add action: when neither the
exact entry text nor a space, the name and a newline occurs in the
current content, append the single entry line to the file (open in
append mode; the sudo fallback appends with a shell redirection). -/
def update_hosts_file_add (shared : Option (List Char)) (name ip : Name) :
    Option (List Char) :=
  let existing := shared.getD []
  if listInfix (cc_entry ip name) existing ||
      listInfix (' ' :: name ++ ['\n']) existing then shared
  else some (existing ++ cc_entry ip name ++ ['\n'])

/-- Model of update_hosts_file for the remove action: when the file
exists, keep exactly the lines whose tokens do not include the name and
write them back. -/
def update_hosts_file_remove (shared : Option (List Char)) (name : Name) :
    Option (List Char) :=
  match shared with
  | none => none
  | some c =>
    some (joinNl ((splitNl c).filter (fun l => ! decide (name ∈ pyTokens l))))

/-- Section-update loop of update_host_machine_hosts for the add action
on a file that already has the managed section: replace the first entry
line carrying the name, or insert the entry before the end marker when
none was found; the entry_exists flag is threaded exactly as in the
source. -/
def maFold (name ip : Name) (inSec exEx : Bool) : List Line → List Line
  | [] => []
  | l :: ls =>
    if l = ccMarkerStart then l :: maFold name ip true exEx ls
    else if l = ccMarkerEnd then
      (if exEx then [l] else [cc_entry ip name, l]) ++ maFold name ip false exEx ls
    else if inSec then
      if decide (name ∈ pyTokens l) then
        cc_entry ip name :: maFold name ip inSec true ls
      else l :: maFold name ip inSec exEx ls
    else l :: maFold name ip inSec exEx ls

/-- Model of update_host_machine_hosts for the add action: append a
fresh managed section when the start marker is absent from the content
(via an echo redirection, which adds a final newline), else update the
existing section and rewrite the file through a heredoc, which also
appends a newline to the joined lines. -/
def update_host_machine_hosts_add (machine : List Char) (name ip : Name) :
    List Char :=
  if ! listInfix ccMarkerStart machine then
    machine ++
      ('\n' :: ccMarkerStart ++ '\n' :: cc_entry ip name ++
        '\n' :: ccMarkerEnd ++ ['\n']) ++ ['\n']
  else joinNl (maFold name ip false false (splitNl machine)) ++ ['\n']

/-- Removal loop of update_host_machine_hosts: a line containing the
start marker text turns the section flag on, one containing the end
marker turns it off, and in-section lines whose tokens include the name
are skipped. -/
def mrFilter (name : Name) (inSec : Bool) : List Line → List Line
  | [] => []
  | l :: ls =>
    if listInfix ccMarkerStart l then l :: mrFilter name true ls
    else if listInfix ccMarkerEnd l then l :: mrFilter name false ls
    else if inSec && decide (name ∈ pyTokens l) then mrFilter name inSec ls
    else l :: mrFilter name inSec ls

/-- Model of update_host_machine_hosts for the remove action. -/
def update_host_machine_hosts_remove (machine : List Char) (name : Name) :
    List Char :=
  joinNl (mrFilter name false (splitNl machine))

/-- Scan of the machine hosts file for a managed entry carrying the
name, delimiting the section the same way the removal loop does. -/
def scanFound (name : Name) (inSec : Bool) : List Line → Bool
  | [] => false
  | l :: ls =>
    if listInfix ccMarkerStart l then scanFound name true ls
    else if listInfix ccMarkerEnd l then scanFound name false ls
    else if inSec && decide (name ∈ pyTokens l) then true
    else scanFound name inSec ls

/-- Model of manage_exposed_ports for the add action: append the exposed
rule block, unless the port list is empty. -/
def manage_exposed_ports_add (fw : List FwRule) (ip : Name) (ports : List Nat) :
    List FwRule :=
  if ports.isEmpty then fw else fw ++ exposedRules ip ports

/-- Model of manage_exposed_ports for the remove action: list the
FORWARD rules, select every line mentioning the ip and delete them by
descending index, leaving exactly the rules that do not mention it. -/
def manage_exposed_ports_remove (fw : List FwRule) (ip : Name) : List FwRule :=
  fw.filter (fun r => ! r.mentions ip)

/-- External world of setup_container_networking: the ip the runtime
reports for a name (lxc list), as an association list. -/
structure NetEnv where
  live : List (Name × Name)

/-- Live-ip query of the runtime. -/
def NetEnv.liveIP (env : NetEnv) (name : Name) : Option Name :=
  env.live.lookup name

/-- Steps of the try block of setup_container_networking, in source
order; the mount and environment steps mutate only the container and
are identities on this state. -/
def setupSteps (name ip : Name) (ports : List Nat) : List (NetState → NetState) :=
  [fun st => save_container_ip st name ip ports,
   fun st => { st with shared := update_hosts_file_add st.shared name ip },
   fun st => { st with machine := update_host_machine_hosts_add st.machine name ip },
   fun st => st,
   fun st => st,
   fun st => st,
   fun st =>
     if ports.isEmpty then st
     else { st with firewall := manage_exposed_ports_add st.firewall ip ports }]

/-- State after the first k steps of the setup sequence completed and
the next step raised. -/
def setupPrefix (name ip : Name) (ports : List Nat) (k : Nat) (st : NetState) :
    NetState :=
  ((setupSteps name ip ports).take k).foldl (fun s f => f s) st

/-- Model of cleanup_container_networking: resolve the ip from the saved
record or the live runtime, remove the name from both hosts files,
remove the iptables rules mentioning the ip when one was resolved, and
drop the saved record. -/
def cleanup_container_networking (env : NetEnv) (st : NetState) (name : Name) :
    NetState :=
  let ipOpt :=
    match get_saved_container_ip st name with
    | some ip => some ip
    | none => env.liveIP name
  let st1 := { st with shared := update_hosts_file_remove st.shared name }
  let st2 := { st1 with machine := update_host_machine_hosts_remove st1.machine name }
  let st3 :=
    match ipOpt with
    | some ip => { st2 with firewall := manage_exposed_ports_remove st2.firewall ip }
    | none => st2
  remove_saved_container_ip st3 name

/-- Observation: some shared hosts line carries the name as a token. -/
def sharedHas (st : NetState) (name : Name) : Bool :=
  match st.shared with
  | none => false
  | some c => (splitNl c).any (fun l => decide (name ∈ pyTokens l))

/-- Observation: the machine hosts managed section carries the name. -/
def machineHas (st : NetState) (name : Name) : Bool :=
  scanFound name false (splitNl st.machine)

/-- Observation: some firewall rule mentions the ip. -/
def fwMentions (st : NetState) (ip : Name) : Bool :=
  st.firewall.any (fun r => r.mentions ip)

/-- Observation: a saved allocation record exists for the name. -/
def savedHas (st : NetState) (name : Name) : Bool :=
  (slookup st.saved name).isSome

/-
File-operation traces, for the persistence-atomicity claim: each writer
is modelled by the list of file mutations it issues, either a
whole-file replace of content built in memory or an append of a chunk
to the existing file.
-/

/-- One mutation of a persisted file. -/
inductive FileOp (α : Type) where
  | replace (content : α)
  | append (chunk : α)
deriving DecidableEq, Repr

/-- Discriminator for the append constructor. -/
def FileOp.isAppend {α : Type} : FileOp α → Bool
  | FileOp.append _ => true
  | FileOp.replace _ => false

/-- Trace of HostsManager.write_hosts: one whole-file write of the
joined content (the sudo fallback copies a temp file holding the same
content over the target, also a single replace). -/
def write_hosts_ops (before managed after : List Line) : List (FileOp (List Char)) :=
  [FileOp.replace (write_hosts before managed after)]

/-- Trace of IPAllocator.save_allocations: one whole-file write of the
serialized registry. -/
def save_allocations_ops (d : AllocState) : List (FileOp AllocState) :=
  [FileOp.replace d]

/-- Trace of PortManager.save_config: one whole-file write of the
serialized forward list. -/
def save_config_ops (f : List Forward) : List (FileOp (List Forward)) :=
  [FileOp.replace f]

/-- Trace of LXCCompose.update_hosts_file for the add action: nothing
when the entry already occurs, else a single-line append to the shared
hosts file (open in append mode, or an echo redirection under sudo). -/
def update_hosts_file_add_ops (shared : Option (List Char)) (name ip : Name) :
    List (FileOp (List Char)) :=
  let existing := shared.getD []
  if listInfix (cc_entry ip name) existing ||
      listInfix (' ' :: name ++ ['\n']) existing then []
  else [FileOp.append (cc_entry ip name ++ ['\n'])]

/-- Trace of LXCCompose.update_hosts_file for the remove action: when
the file exists, one whole-file write of the filtered lines. -/
def update_hosts_file_remove_ops (shared : Option (List Char)) (name : Name) :
    List (FileOp (List Char)) :=
  match shared with
  | none => []
  | some c =>
    [FileOp.replace (joinNl ((splitNl c).filter (fun l => ! decide (name ∈ pyTokens l))))]

/-- A line that is neither sentinel once stripped. -/
def NoMarker (l : Line) : Prop :=
  pyStrip l ≠ marker_start ∧ pyStrip l ≠ marker_end

instance (l : Line) : Decidable (NoMarker l) :=
  inferInstanceAs (Decidable (_ ∧ _))

/-- Normal form of the after section produced by a write and read
cycle: a leading empty separator line, then the after lines, then the
final empty line when the section did not already end on one; an empty
line alone when there was no non-blank after content. -/
def afterOut (a : List Line) : List Line :=
  if (!a.isEmpty) && a.any (fun l => !isBlankL l) then
    [] :: a ++ (if a.getLast? = some [] then [] else [[]])
  else [[]]

/-- Demo state for the name-conflict scenario of the spec: app exists
as a live runtime container. -/
def c2St : SysState :=
  { hosts := write_hosts ["127.0.0.1 localhost".data]
      [hm_entry "10.0.3.15".data "db".data] []
    alloc := initAlloc 11
    lxc := ["app".data] }

/-- Demo state for the removal scenario: one managed entry for web with
a matching allocation record. -/
def c9St : SysState :=
  { hosts := write_hosts ["127.0.0.1 localhost".data]
      [hm_entry "10.0.3.11".data "web".data] []
    alloc :=
      { next_ip := 12
        reserved := List.range' 1 10
        allocations := [("web".data, 11)] }
    lxc := [] }

/-- Demo state for the reconciliation scenario of the spec: managed
entries web and old, allocations for both, and only web alive. -/
def c6St : SysState :=
  { hosts := write_hosts ["127.0.0.1 localhost".data]
      [hm_entry "10.0.3.11".data "web".data,
       hm_entry "10.0.3.12".data "old".data] []
    alloc :=
      { next_ip := 13
        reserved := List.range' 1 10
        allocations := [("web".data, 11), ("old".data, 12)] }
    lxc := ["web".data] }

/-- Post-state of a completed failure teardown: no shared hosts line
and no managed machine hosts line carries the name, no firewall rule
mentions the ip, and no saved allocation record exists for the name. -/
def netClean (st : NetState) (name ip : Name) : Prop :=
  sharedHas st name = false ∧ machineHas st name = false ∧
    fwMentions st ip = false ∧ savedHas st name = false

/-- Demo environment and state for the rollback scenario: failure
injected after the hosts-add steps (two steps completed) and before the
firewall step. -/
def c4Env : NetEnv := { live := [("web".data, "10.0.3.11".data)] }

/-- Initial state for the rollback scenario. -/
def c4St : NetState :=
  { shared := none
    machine := "127.0.0.1 localhost".data
    firewall := []
    saved := [] }

/-- Demo runtime for the port-forward scenario: web and api both
running on the container subnet. -/
def pmDemoEnv : PMEnv :=
  { containers :=
      [{ name := "web"
         status := "Running"
         network := [("eth0", [{ family := "inet", address := "10.0.3.11" }])] },
       { name := "api"
         status := "Running"
         network := [("eth0", [{ family := "inet", address := "10.0.3.12" }])] }]
    iptablesOk := true }

theorem splitNl_ne_nil (c : List Char) : splitNl c ≠ [] := by
  cases c with
  | nil => simp [splitNl]
  | cons x cs =>
    simp only [splitNl]
    split
    · simp
    · split <;> simp

theorem splitNl_cons_not_nl (c : Char) (cs : List Char) (h : c ≠ '\n') :
    splitNl (c :: cs) =
      (c :: (splitNl cs).headI) :: (splitNl cs).tail := by
  simp only [splitNl, if_neg h]
  cases hcs : splitNl cs with
  | nil => exact absurd hcs (splitNl_ne_nil cs)
  | cons l ls => simp [List.headI]

theorem mem_splitNl_no_nl (c : List Char) :
    ∀ l ∈ splitNl c, '\n' ∉ l := by
  induction c with
  | nil =>
    intro l hl
    simp only [splitNl, List.mem_singleton] at hl
    simp [hl]
  | cons x cs ih =>
    intro l hl
    by_cases hx : x = '\n'
    · subst hx
      simp only [splitNl, if_pos rfl] at hl
      cases List.mem_cons.mp hl with
      | inl h0 => simp [h0]
      | inr h0 => exact ih l h0
    · rw [splitNl_cons_not_nl x cs hx] at hl
      cases hcs : splitNl cs with
      | nil => exact absurd hcs (splitNl_ne_nil cs)
      | cons l0 ls =>
        rw [hcs] at hl
        simp only [List.headI, List.tail_cons] at hl
        cases List.mem_cons.mp hl with
        | inl h0 =>
          subst h0
          intro hmem
          cases List.mem_cons.mp hmem with
          | inl h1 => exact hx h1.symm
          | inr h1 =>
            exact ih l0 (by rw [hcs]; exact List.mem_cons_self _ _) h1
        | inr h0 =>
          exact ih l (by rw [hcs]; exact List.mem_cons_of_mem _ h0)

theorem splitNl_append_nl (l : List Char) (rest : List Char)
    (h : '\n' ∉ l) : splitNl (l ++ '\n' :: rest) = l :: splitNl rest := by
  induction l with
  | nil => simp [splitNl]
  | cons c cs ih =>
    have hc : c ≠ '\n' := fun hc => h (hc ▸ List.mem_cons_self c cs)
    have hcs : '\n' ∉ cs := fun hm => h (List.mem_cons_of_mem c hm)
    rw [List.cons_append, splitNl_cons_not_nl c (cs ++ '\n' :: rest) hc,
      ih hcs]
    simp [List.headI]

theorem splitNl_of_no_nl (l : List Char) (h : '\n' ∉ l) :
    splitNl l = [l] := by
  induction l with
  | nil => simp [splitNl]
  | cons c cs ih =>
    have hc : c ≠ '\n' := fun hc => h (hc ▸ List.mem_cons_self c cs)
    have hcs : '\n' ∉ cs := fun hm => h (List.mem_cons_of_mem c hm)
    rw [splitNl_cons_not_nl c cs hc, ih hcs]
    simp [List.headI]

/-- Round trip: splitting a joined list of newline-free lines returns the
lines unchanged (for a nonempty list of lines, as produced by any Python
read of a file). -/
theorem splitNl_joinNl (ls : List (List Char)) (hne : ls ≠ [])
    (h : ∀ l ∈ ls, '\n' ∉ l) : splitNl (joinNl ls) = ls := by
  induction ls with
  | nil => exact absurd rfl hne
  | cons l rest ih =>
    cases rest with
    | nil =>
      simp only [joinNl]
      exact splitNl_of_no_nl l (h l (List.mem_cons_self _ _))
    | cons l2 rest2 =>
      have hl : '\n' ∉ l := h l (List.mem_cons_self _ _)
      have hrest : ∀ x ∈ l2 :: rest2, '\n' ∉ x := fun x hx =>
        h x (List.mem_cons_of_mem l hx)
      have hj : joinNl (l :: l2 :: rest2) = l ++ '\n' :: joinNl (l2 :: rest2) := rfl
      rw [hj, splitNl_append_nl l _ hl, ih (by simp) hrest]

theorem alookup_append_self (l : List (Name × Nat)) (n : Name) (v : Nat)
    (h : alookup l n = none) : alookup (l ++ [(n, v)]) n = some v := by
  induction l with
  | nil => simp [alookup]
  | cons p rest ih =>
    obtain ⟨k, v0⟩ := p
    by_cases hp : k = n
    · simp [alookup, hp] at h
    · rw [List.cons_append]
      simp only [alookup, if_neg hp] at h ⊢
      exact ih h

theorem alookup_filter_ne (l : List (Name × Nat)) (n : Name) :
    alookup (l.filter (fun p => ¬ p.1 = n)) n = none := by
  induction l with
  | nil => simp [alookup]
  | cons p rest ih =>
    by_cases hp : p.1 = n
    · simpa [List.filter, hp] using ih
    · simpa [List.filter, hp, alookup] using ih

/-
Theorems for the claims.
-/

/-- Claim C1 (code bug evaluation): on a registry created with
start_from = 254 (reserved suffixes 1..253), the first allocation
returns suffix 254 and the second returns suffix 255 with no error,
although 255 is outside the valid range [start, 254]; the exhaustion
check of allocate_ip only fires after an increment inside the skip
loop, so a next_ip that passes 254 without colliding is returned as is,
instead of raising the AllocationExhausted the spec requires.  The same
overrun happens on the default registry (start_from = 11) at the 245th
distinct name. -/
theorem allocate_ip_overruns_subnet :
    allocate_ip (initAlloc 254) "a".data =
      Except.ok (254,
        { next_ip := 255
          reserved := List.range' 1 253
          allocations := [("a".data, 254)] }) ∧
    (allocate_ip
        { next_ip := 255
          reserved := List.range' 1 253
          allocations := [("a".data, 254)] } "b".data).map (·.1) =
      Except.ok 255 := by
  constructor
  · rfl
  · rfl

theorem rhScan_cons (inM afterM : Bool) (l : Line) (ls : List Line) :
    rhScan inM afterM (l :: ls) =
      (if pyStrip l = marker_start then rhScan true afterM ls
       else if pyStrip l = marker_end then rhScan false true ls
       else
         let r := rhScan inM afterM ls
         if !inM && !afterM then (l :: r.1, r.2.1, r.2.2)
         else if inM then (r.1, l :: r.2.1, r.2.2)
         else (r.1, r.2.1, l :: r.2.2)) := rfl

theorem rhScan_ms (inM afterM : Bool) (rest : List Line) :
    rhScan inM afterM (marker_start :: rest) = rhScan true afterM rest := by
  rw [rhScan_cons, if_pos (by decide : pyStrip marker_start = marker_start)]

theorem rhScan_me (inM afterM : Bool) (rest : List Line) :
    rhScan inM afterM (marker_end :: rest) = rhScan false true rest := by
  rw [rhScan_cons, if_neg (by decide : ¬ pyStrip marker_end = marker_start),
    if_pos (by decide : pyStrip marker_end = marker_end)]

theorem rhScan_cons_ff (l : Line) (ls : List Line)
    (h1 : pyStrip l ≠ marker_start) (h2 : pyStrip l ≠ marker_end) :
    rhScan false false (l :: ls) =
      (l :: (rhScan false false ls).1,
        (rhScan false false ls).2.1, (rhScan false false ls).2.2) := by
  rw [rhScan_cons, if_neg h1, if_neg h2]
  rfl

theorem rhScan_cons_tf (l : Line) (ls : List Line)
    (h1 : pyStrip l ≠ marker_start) (h2 : pyStrip l ≠ marker_end) :
    rhScan true false (l :: ls) =
      ((rhScan true false ls).1,
        l :: (rhScan true false ls).2.1, (rhScan true false ls).2.2) := by
  rw [rhScan_cons, if_neg h1, if_neg h2]
  rfl

theorem rhScan_cons_ft (l : Line) (ls : List Line)
    (h1 : pyStrip l ≠ marker_start) (h2 : pyStrip l ≠ marker_end) :
    rhScan false true (l :: ls) =
      ((rhScan false true ls).1,
        (rhScan false true ls).2.1, l :: (rhScan false true ls).2.2) := by
  rw [rhScan_cons, if_neg h1, if_neg h2]
  rfl

theorem rhScan_before (ls rest : List Line) (h : ∀ l ∈ ls, NoMarker l) :
    rhScan false false (ls ++ rest) =
      (ls ++ (rhScan false false rest).1,
        (rhScan false false rest).2.1, (rhScan false false rest).2.2) := by
  induction ls with
  | nil => simp
  | cons l ls' ih =>
    have hl := h l (List.mem_cons_self _ _)
    have hrest : ∀ x ∈ ls', NoMarker x := fun x hx =>
      h x (List.mem_cons_of_mem _ hx)
    rw [List.cons_append, rhScan_cons_ff l _ hl.1 hl.2, ih hrest]
    rfl

theorem rhScan_managed (ls rest : List Line) (h : ∀ l ∈ ls, NoMarker l) :
    rhScan true false (ls ++ rest) =
      ((rhScan true false rest).1,
        ls ++ (rhScan true false rest).2.1, (rhScan true false rest).2.2) := by
  induction ls with
  | nil => simp
  | cons l ls' ih =>
    have hl := h l (List.mem_cons_self _ _)
    have hrest : ∀ x ∈ ls', NoMarker x := fun x hx =>
      h x (List.mem_cons_of_mem _ hx)
    rw [List.cons_append, rhScan_cons_tf l _ hl.1 hl.2, ih hrest]
    rfl

theorem rhScan_after (ls : List Line) (h : ∀ l ∈ ls, NoMarker l) :
    rhScan false true ls = ([], [], ls) := by
  induction ls with
  | nil => rfl
  | cons l ls' ih =>
    have hl := h l (List.mem_cons_self _ _)
    have hrest : ∀ x ∈ ls', NoMarker x := fun x hx =>
      h x (List.mem_cons_of_mem _ hx)
    rw [rhScan_cons_ft l _ hl.1 hl.2, ih hrest]

theorem trimTB_subset (b : List Line) : ∀ x ∈ trimTB b, x ∈ b := by
  intro x hx
  unfold trimTB at hx
  rw [List.mem_reverse] at hx
  have hx2 := (List.dropWhile_sublist (l := b.reverse) (p := isBlankL)).subset hx
  rw [← List.mem_reverse]
  exact hx2

theorem write_hosts_lines (b m a : List Line) (hm : m ≠ []) :
    write_hosts b m a =
      joinNl (trimTB b ++ [] :: marker_start ::
        (m ++ marker_end :: afterOut a)) := by
  have hmE : m.isEmpty = false := by
    cases m with
    | nil => exact absurd rfl hm
    | cons x xs => rfl
  unfold write_hosts afterOut
  simp only [hmE, Bool.false_eq_true, if_false]
  by_cases hcond : ((!a.isEmpty) && a.any (fun l => !isBlankL l)) = true
  · simp only [hcond, if_true]
    have haE : a ≠ [] := by
      have := (Bool.and_eq_true _ _ ▸ hcond).1
      cases a with
      | nil => simp at this
      | cons x xs => simp
    have hlast : (trimTB b ++ [[]] ++ [marker_start] ++ m ++ [marker_end]
        ++ [[]] ++ a).getLast? = a.getLast? := by
      rw [List.getLast?_append_of_ne_nil _ haE]
    by_cases hl : a.getLast? = some []
    · rw [if_neg]
      · simp [List.append_assoc, hl]
      · rw [hlast, hl]
        simp
    · rw [if_pos]
      · simp [List.append_assoc, hl]
      · constructor
        · simp
        · rw [hlast]
          exact hl
  · rw [Bool.not_eq_true] at hcond
    simp only [hcond, Bool.false_eq_true, if_false]
    rw [if_pos]
    · simp [List.append_assoc]
    · constructor
      · simp
      · rw [List.getLast?_append_of_ne_nil _ (by simp : [marker_end] ≠ [])]
        decide

/-- Claim C3 (amended): writing (before, managed, after) with
marker-free, newline-free lines and a nonempty managed section, then
reading, yields (trimTB before ++ [empty line], managed, afterOut
after): the managed section round-trips exactly, the before section
comes back with its trailing blank lines trimmed and one empty
separator line appended, and the after section comes back as afterOut
(an empty separator line prepended and a final empty line appended
when it has non-blank content, a single empty line otherwise).  The
round trip is the identity precisely on the triples whose before and
after components are already of that normal form: the second conjunct
gives the identity there, and the third shows any input the round trip
reproduces is of the normal form. -/
theorem read_write_hosts_normalizes :
    (∀ b m a : List Line,
        (∀ l ∈ b, NoMarker l ∧ '\n' ∉ l) →
        (∀ l ∈ m, NoMarker l ∧ '\n' ∉ l) →
        (∀ l ∈ a, NoMarker l ∧ '\n' ∉ l) →
        m ≠ [] →
        read_hosts (write_hosts b m a) = (trimTB b ++ [[]], m, afterOut a)) ∧
    (∀ b m a : List Line,
        (∀ l ∈ b, NoMarker l ∧ '\n' ∉ l) →
        (∀ l ∈ m, NoMarker l ∧ '\n' ∉ l) →
        (∀ l ∈ a, NoMarker l ∧ '\n' ∉ l) →
        m ≠ [] →
        b = trimTB b ++ [[]] → a = afterOut a →
        read_hosts (write_hosts b m a) = (b, m, a)) ∧
    (∀ b m a : List Line,
        (∀ l ∈ b, NoMarker l ∧ '\n' ∉ l) →
        (∀ l ∈ m, NoMarker l ∧ '\n' ∉ l) →
        (∀ l ∈ a, NoMarker l ∧ '\n' ∉ l) →
        m ≠ [] →
        read_hosts (write_hosts b m a) = (b, m, a) →
        b = trimTB b ++ [[]] ∧ a = afterOut a) := by
  have hA : ∀ b m a : List Line,
      (∀ l ∈ b, NoMarker l ∧ '\n' ∉ l) →
      (∀ l ∈ m, NoMarker l ∧ '\n' ∉ l) →
      (∀ l ∈ a, NoMarker l ∧ '\n' ∉ l) →
      m ≠ [] →
      read_hosts (write_hosts b m a) = (trimTB b ++ [[]], m, afterOut a) := by
    intro b m a hb hmw ha hm
    have hnil : NoMarker ([] : Line) ∧ '\n' ∉ ([] : Line) := by
      constructor
      · constructor
        · decide
        · decide
      · simp
    have hms : '\n' ∉ marker_start := by decide
    have hme2 : '\n' ∉ marker_end := by decide
    have hao : ∀ l ∈ afterOut a, NoMarker l ∧ '\n' ∉ l := by
      intro l hl
      unfold afterOut at hl
      split at hl
      · cases List.mem_cons.mp hl with
        | inl h0 => subst h0; exact hnil
        | inr h0 =>
          cases List.mem_append.mp h0 with
          | inl h1 => exact ha l h1
          | inr h1 =>
            split at h1
            · cases h1
            · rw [List.mem_singleton] at h1
              subst h1; exact hnil
      · rw [List.mem_singleton] at hl
        subst hl; exact hnil
    have htb : ∀ l ∈ trimTB b ++ [[]], NoMarker l ∧ '\n' ∉ l := by
      intro l hl
      cases List.mem_append.mp hl with
      | inl h0 => exact hb l (trimTB_subset b l h0)
      | inr h0 =>
        rw [List.mem_singleton] at h0
        subst h0; exact hnil
    have hL : ∀ l ∈ trimTB b ++ [] :: marker_start ::
        (m ++ marker_end :: afterOut a), '\n' ∉ l := by
      intro l hl
      cases List.mem_append.mp hl with
      | inl h0 => exact (hb l (trimTB_subset b l h0)).2
      | inr h0 =>
        cases List.mem_cons.mp h0 with
        | inl h1 => subst h1; exact hnil.2
        | inr h1 =>
          cases List.mem_cons.mp h1 with
          | inl h2 => subst h2; exact hms
          | inr h2 =>
            cases List.mem_append.mp h2 with
            | inl h3 => exact (hmw l h3).2
            | inr h3 =>
              cases List.mem_cons.mp h3 with
              | inl h4 => subst h4; exact hme2
              | inr h4 => exact (hao l h4).2
    rw [read_hosts, write_hosts_lines b m a hm,
      splitNl_joinNl _ (by simp) hL]
    have hassoc : trimTB b ++ [] :: marker_start ::
        (m ++ marker_end :: afterOut a) =
        (trimTB b ++ [[]]) ++ (marker_start ::
          (m ++ marker_end :: afterOut a)) := by
      simp
    rw [hassoc, rhScan_before _ _ (fun l hl => (htb l hl).1), rhScan_ms,
      rhScan_managed m _ (fun l hl => (hmw l hl).1), rhScan_me,
      rhScan_after _ (fun l hl => (hao l hl).1)]
    simp
  refine ⟨hA, ?_, ?_⟩
  · intro b m a hb hmw ha hm hbn han
    rw [hA b m a hb hmw ha hm, ← hbn, ← han]
  · intro b m a hb hmw ha hm heq
    have h1 := hA b m a hb hmw ha hm
    rw [heq] at h1
    constructor
    · exact congrArg Prod.fst h1
    · exact congrArg (fun p => p.2.2) h1

/-- Claim C3 (counterexample): the write and read round trip is not the
identity.  Writing a before section with no trailing blank line and an
empty after section, then reading, yields a before section with an
extra empty line and an after section holding one empty line. -/
theorem read_write_hosts_not_identity :
    read_hosts (write_hosts ["127.0.0.1 localhost".data]
        [hm_entry "10.0.3.11".data "web".data] []) ≠
      (["127.0.0.1 localhost".data],
        [hm_entry "10.0.3.11".data "web".data], ([] : List Line)) := by
  decide

/-- Witness for claim C3 (amended) at concrete inputs: the
normalization on a general input, and the exact identity on an input
already in normal form (before ending in one empty line, after a
single empty line). -/
theorem read_write_hosts_normalizes_witness :
    (read_hosts (write_hosts ["127.0.0.1 localhost".data, []]
        [hm_entry "10.0.3.11".data "web".data] []) =
      (trimTB ["127.0.0.1 localhost".data, []] ++ [[]],
        [hm_entry "10.0.3.11".data "web".data], afterOut [])) ∧
    (read_hosts (write_hosts ["x".data, []]
        [hm_entry "10.0.3.11".data "web".data] [[]]) =
      (["x".data, []], [hm_entry "10.0.3.11".data "web".data],
        [([] : Line)])) :=
  ⟨read_write_hosts_normalizes.1 ["127.0.0.1 localhost".data, []]
      [hm_entry "10.0.3.11".data "web".data] []
      (by decide) (by decide) (by decide) (by decide),
    read_write_hosts_normalizes.2.1 ["x".data, []]
      [hm_entry "10.0.3.11".data "web".data] [[]]
      (by decide) (by decide) (by decide) (by decide) (by decide) (by decide)⟩

theorem filter_length_lt (l : List Line) (p : Line → Bool) (x : Line)
    (hx : x ∈ l) (hpx : p x = false) :
    (l.filter p).length < l.length := by
  induction l with
  | nil => cases hx
  | cons a as ih =>
    cases hpa : p a with
    | false =>
      have hle := List.length_filter_le p as
      simp only [List.filter_cons, hpa, Bool.false_eq_true, if_false,
        List.length_cons]
      omega
    | true =>
      have hxas : x ∈ as := by
        cases List.mem_cons.mp hx with
        | inl h0 =>
          subst h0
          rw [hpa] at hpx
          exact absurd hpx (by simp)
        | inr h0 => exact h0
      have := ih hxas
      simp only [List.filter_cons, hpa, if_true, List.length_cons]
      omega

theorem release_ip_alookup (a : AllocState) (n : Name) :
    alookup ((release_ip a n).2.allocations) n = none := by
  unfold release_ip
  cases hl : alookup a.allocations n with
  | some v => simpa using alookup_filter_ne a.allocations n
  | none => simpa using hl

/-- Claim C2: a name conflict makes add_container fail before any file
mutation: the returned state is the pre-call state, so the hosts file is
byte-identical and the allocation registry untouched; and a name
present as a live runtime container, or as a managed hosts entry, is a
conflict. -/
theorem add_container_conflict_no_mutation :
    (∀ (st : SysState) (name : Name) (oip : Option Name),
        check_name_conflict st name = true →
        add_container st name oip = (Except.error HMErr.nameConflict, st)) ∧
    (∀ (st : SysState) (name : Name),
        name ∈ st.lxc → check_name_conflict st name = true) ∧
    (∀ (st : SysState) (name : Name),
        (∃ e ∈ hm_list_entries st.hosts, e.container = name) →
        check_name_conflict st name = true) := by
  refine ⟨?_, ?_, ?_⟩
  · intro st name oip h
    simp [add_container, h]
  · intro st name h
    simp [check_name_conflict, h]
  · intro st name h
    obtain ⟨e, he, hc⟩ := h
    have hany : (hm_list_entries st.hosts).any
        (fun e => decide (e.container = name)) = true :=
      List.any_eq_true.mpr ⟨e, he, by simp [hc]⟩
    simp [check_name_conflict, hany]

/-- Witness for claim C2 at a concrete input: adding app while app is a
live container fails with the conflict error and returns the state,
hosts file included, unchanged. -/
theorem add_container_conflict_no_mutation_witness :
    add_container c2St "app".data (some "10.0.3.20".data) =
      (Except.error HMErr.nameConflict, c2St) :=
  add_container_conflict_no_mutation.1 c2St "app".data (some "10.0.3.20".data)
    (add_container_conflict_no_mutation.2.1 c2St "app".data (by decide))

/-- Claim C9: remove_container releases the allocation record exactly
when at least one managed line carries the name: with no such line it
returns false and leaves the state (hosts file and allocation registry)
unchanged, and with one it returns true and the allocation registry no
longer holds a record for the name. -/
theorem remove_container_release_link :
    (∀ (st : SysState) (name : Name),
        (∀ l ∈ (read_hosts st.hosts).2.1, lineHasToken name l = false) →
        remove_container st name = (false, st)) ∧
    (∀ (st : SysState) (name : Name),
        (∃ l ∈ (read_hosts st.hosts).2.1, lineHasToken name l = true) →
        (remove_container st name).1 = true ∧
          alookup (remove_container st name).2.alloc.allocations name = none) := by
  constructor
  · intro st name h
    unfold remove_container
    have hfix : (read_hosts st.hosts).2.1.filter
        (fun l => ! lineHasToken name l) = (read_hosts st.hosts).2.1 :=
      List.filter_eq_self.mpr (fun l hl => by rw [h l hl]; rfl)
    simp only [hfix]
    rw [if_neg (lt_irrefl _)]
  · intro st name h
    obtain ⟨l, hl, hp⟩ := h
    have hlt : ((read_hosts st.hosts).2.1.filter
        (fun l => ! lineHasToken name l)).length <
        (read_hosts st.hosts).2.1.length :=
      filter_length_lt _ _ l hl (by rw [hp]; rfl)
    unfold remove_container
    simp only [hlt, if_true]
    exact ⟨by trivial, release_ip_alookup st.alloc name⟩

/-- Witness for claim C9 at a concrete input: removing web succeeds and
its allocation record is gone. -/
theorem remove_container_release_link_witness :
    (remove_container c9St "web".data).1 = true ∧
      alookup (remove_container c9St "web".data).2.alloc.allocations
        "web".data = none :=
  remove_container_release_link.2 c9St "web".data (by decide)

/-- Claim C6 (code bug evaluation): the orphan cleanup the spec calls
syncWithReality is implemented by HostsManager.cleanup_orphaned_entries
and behaves as claimed on the reconciliation scenario (one entry
removed, the old allocation released, web untouched); but the class
defines no method named sync_with_reality, while the list, ps, up and
down commands of srv/lxc-compose/cli/lxc_compose.py invoke
hosts_manager.sync_with_reality(), so the cleanup step never actually
runs there (the AttributeError is swallowed by a bare except in list
and ps, and escapes the except ImportError handler in up). -/
theorem sync_with_reality_undefined :
    ("sync_with_reality" ∉ hostsManagerMethods ∧
      "cleanup_orphaned_entries" ∈ hostsManagerMethods) ∧
    ((cleanup_orphaned_entries c6St).1 = 1 ∧
      (hm_list_entries (cleanup_orphaned_entries c6St).2.hosts).map
        (·.container) = ["web".data] ∧
      alookup (cleanup_orphaned_entries c6St).2.alloc.allocations
        "old".data = none ∧
      alookup (cleanup_orphaned_entries c6St).2.alloc.allocations
        "web".data = some 11) := by
  refine ⟨⟨?_, ?_⟩, ?_, ?_, ?_, ?_⟩
  · decide
  · decide
  · decide
  · decide
  · decide
  · decide

theorem slookup_filter_ne (l : List (Name × SavedInfo)) (n : Name) :
    slookup (l.filter (fun p => ¬ p.1 = n)) n = none := by
  induction l with
  | nil => simp [slookup]
  | cons p rest ih =>
    by_cases hp : p.1 = n
    · simpa [List.filter, hp] using ih
    · simpa [List.filter, hp, slookup] using ih

theorem slookup_sset_self (l : List (Name × SavedInfo)) (n : Name)
    (v : SavedInfo) : slookup (sset l n v) n = some v := by
  induction l with
  | nil => simp [sset, slookup]
  | cons p rest ih =>
    obtain ⟨k, w⟩ := p
    by_cases hp : k = n
    · simp [sset, hp, slookup]
    · have e1 : sset ((k, w) :: rest) n v = (k, w) :: sset rest n v := by
        show (if k = n then (k, v) :: rest else (k, w) :: sset rest n v) =
          (k, w) :: sset rest n v
        rw [if_neg hp]
      rw [e1]
      show (if k = n then some w else slookup (sset rest n v) n) = some v
      rw [if_neg hp]
      exact ih

theorem any_filter_not {α : Type} (l : List α) (p : α → Bool) :
    (l.filter (fun x => ! p x)).any p = false := by
  induction l with
  | nil => rfl
  | cons x xs ih =>
    cases hp : p x with
    | true => simp [List.filter_cons, hp, ih]
    | false => simp [List.filter_cons, hp, ih]

theorem any_false_filter {α : Type} (l : List α) (p q : α → Bool)
    (h : l.any p = false) : (l.filter q).any p = false := by
  induction l with
  | nil => rfl
  | cons x xs ih =>
    rw [List.any_cons, Bool.or_eq_false_iff] at h
    cases hq : q x with
    | true =>
      rw [List.filter_cons, if_pos (by rw [hq]), List.any_cons, h.1,
        Bool.false_or]
      exact ih h.2
    | false =>
      rw [List.filter_cons, if_neg (by rw [hq]; exact Bool.false_ne_true)]
      exact ih h.2

theorem mrFilter_scan (name : Name) (ls : List Line) :
    ∀ inSec : Bool, scanFound name inSec (mrFilter name inSec ls) = false := by
  induction ls with
  | nil => intro inSec; rfl
  | cons l ls ih =>
    intro inSec
    by_cases h1 : listInfix ccMarkerStart l = true
    · simp only [mrFilter, scanFound, h1, if_true]
      exact ih true
    · rw [Bool.not_eq_true] at h1
      by_cases h2 : listInfix ccMarkerEnd l = true
      · simp only [mrFilter, scanFound, h1, h2, Bool.false_eq_true, if_false,
          if_true]
        exact ih false
      · rw [Bool.not_eq_true] at h2
        by_cases h3 : (inSec && decide (name ∈ pyTokens l)) = true
        · simp only [mrFilter, h1, h2, h3, Bool.false_eq_true, if_false,
            if_true]
          exact ih inSec
        · rw [Bool.not_eq_true] at h3
          simp only [mrFilter, scanFound, h1, h2, h3, Bool.false_eq_true,
            if_false]
          exact ih inSec

theorem mrFilter_mem (name : Name) (ls : List Line) :
    ∀ inSec : Bool, ∀ l ∈ mrFilter name inSec ls, l ∈ ls := by
  induction ls with
  | nil => intro inSec l hl; cases hl
  | cons x xs ih =>
    intro inSec l hl
    by_cases h1 : listInfix ccMarkerStart x = true
    · simp only [mrFilter, h1, if_true] at hl
      cases List.mem_cons.mp hl with
      | inl h0 => exact h0 ▸ List.mem_cons_self _ _
      | inr h0 => exact List.mem_cons_of_mem _ (ih true l h0)
    · rw [Bool.not_eq_true] at h1
      by_cases h2 : listInfix ccMarkerEnd x = true
      · simp only [mrFilter, h1, h2, Bool.false_eq_true, if_false, if_true] at hl
        cases List.mem_cons.mp hl with
        | inl h0 => exact h0 ▸ List.mem_cons_self _ _
        | inr h0 => exact List.mem_cons_of_mem _ (ih false l h0)
      · rw [Bool.not_eq_true] at h2
        by_cases h3 : (inSec && decide (name ∈ pyTokens x)) = true
        · simp only [mrFilter, h1, h2, h3, Bool.false_eq_true, if_false,
            if_true] at hl
          exact List.mem_cons_of_mem _ (ih inSec l hl)
        · rw [Bool.not_eq_true] at h3
          simp only [mrFilter, h1, h2, h3, Bool.false_eq_true, if_false] at hl
          cases List.mem_cons.mp hl with
          | inl h0 => exact h0 ▸ List.mem_cons_self _ _
          | inr h0 => exact List.mem_cons_of_mem _ (ih inSec l h0)

theorem machine_remove_clean (c : List Char) (name : Name) :
    scanFound name false
      (splitNl (update_host_machine_hosts_remove c name)) = false := by
  unfold update_host_machine_hosts_remove
  cases h : mrFilter name false (splitNl c) with
  | nil => rfl
  | cons x xs =>
    rw [splitNl_joinNl (x :: xs) (by simp) ?hnl]
    case hnl =>
      intro l hl
      rw [← h] at hl
      exact mem_splitNl_no_nl c l (mrFilter_mem name (splitNl c) false l hl)
    rw [← h]
    exact mrFilter_scan name (splitNl c) false

theorem shared_remove_clean (sh : Option (List Char)) (name : Name) :
    (match update_hosts_file_remove sh name with
     | none => false
     | some c => (splitNl c).any (fun l => decide (name ∈ pyTokens l))) = false := by
  cases sh with
  | none => rfl
  | some c =>
    show (splitNl (joinNl ((splitNl c).filter
        (fun l => ! decide (name ∈ pyTokens l))))).any
        (fun l => decide (name ∈ pyTokens l)) = false
    cases h : (splitNl c).filter (fun l => ! decide (name ∈ pyTokens l)) with
    | nil => rfl
    | cons x xs =>
      rw [splitNl_joinNl (x :: xs) (by simp) ?hnl]
      case hnl =>
        intro l hl
        rw [← h] at hl
        exact mem_splitNl_no_nl c l (List.mem_of_mem_filter hl)
      rw [← h]
      exact any_filter_not (splitNl c) (fun l => decide (name ∈ pyTokens l))

theorem cleanup_fields (env : NetEnv) (st : NetState) (name : Name) :
    (cleanup_container_networking env st name).shared =
        update_hosts_file_remove st.shared name ∧
      (cleanup_container_networking env st name).machine =
        update_host_machine_hosts_remove st.machine name ∧
      (cleanup_container_networking env st name).saved =
        st.saved.filter (fun p => ¬ p.1 = name) := by
  unfold cleanup_container_networking
  cases get_saved_container_ip st name with
  | some ip0 => exact ⟨rfl, rfl, rfl⟩
  | none =>
    cases env.liveIP name with
    | some ip1 => exact ⟨rfl, rfl, rfl⟩
    | none => exact ⟨rfl, rfl, rfl⟩

theorem cleanup_firewall_of_saved (env : NetEnv) (st : NetState)
    (name ip : Name) (h : get_saved_container_ip st name = some ip) :
    (cleanup_container_networking env st name).firewall =
      st.firewall.filter (fun r => ! r.mentions ip) := by
  unfold cleanup_container_networking
  rw [h]
  rfl

theorem cleanup_firewall_cases (env : NetEnv) (st : NetState) (name : Name) :
    (cleanup_container_networking env st name).firewall = st.firewall ∨
      ∃ ip0, (cleanup_container_networking env st name).firewall =
        st.firewall.filter (fun r => ! r.mentions ip0) := by
  unfold cleanup_container_networking
  cases get_saved_container_ip st name with
  | some ip0 => exact Or.inr ⟨ip0, rfl⟩
  | none =>
    cases env.liveIP name with
    | some ip1 => exact Or.inr ⟨ip1, rfl⟩
    | none => exact Or.inl rfl

theorem foldl_saved (fs : List (NetState → NetState))
    (h : ∀ f ∈ fs, ∀ s, (f s).saved = s.saved) (s : NetState) :
    (fs.foldl (fun x g => g x) s).saved = s.saved := by
  induction fs generalizing s with
  | nil => rfl
  | cons f fs' ih =>
    rw [List.foldl_cons]
    rw [ih (fun g hg => h g (List.mem_cons_of_mem _ hg)) (f s)]
    exact h f (List.mem_cons_self _ _) s

theorem setupSteps_tail_saved (name ip : Name) (ports : List Nat) :
    ∀ f ∈ (setupSteps name ip ports).tail, ∀ s : NetState,
      (f s).saved = s.saved := by
  intro f hf s
  simp only [setupSteps, List.tail_cons, List.mem_cons, List.not_mem_nil,
    or_false] at hf
  rcases hf with h | h | h | h | h | h <;> subst h
  · rfl
  · rfl
  · rfl
  · rfl
  · rfl
  · by_cases hpe : ports.isEmpty = true
    · simp only [hpe, if_true]
    · rw [Bool.not_eq_true] at hpe
      simp only [hpe, Bool.false_eq_true, if_false]

theorem setupPrefix_saved (name ip : Name) (ports : List Nat) (k : Nat)
    (st : NetState) (hk : 1 ≤ k) :
    get_saved_container_ip (setupPrefix name ip ports k st) name = some ip := by
  obtain ⟨j, rfl⟩ : ∃ j, k = j + 1 := ⟨k - 1, by omega⟩
  unfold setupPrefix
  rw [show setupSteps name ip ports =
      (fun st => save_container_ip st name ip ports) ::
        (setupSteps name ip ports).tail from rfl]
  rw [List.take_succ_cons, List.foldl_cons]
  unfold get_saved_container_ip
  rw [foldl_saved _ (fun f hf => setupSteps_tail_saved name ip ports f
      (List.take_subset _ _ hf)) _]
  show (slookup (sset st.saved name { ip := ip, ports := ports }) name).map
      (·.ip) = some ip
  rw [slookup_sset_self]
  rfl

/-- Claim C4: whichever step of the setup sequence raises (the first k
steps completed, any k), running the failure cleanup leaves zero hosts
entries for the name in the shared file and the machine managed
section, zero firewall rules mentioning the container ip, and zero
saved allocation records for the name, provided the runtime still
resolves the name to the ip the setup used and no foreign firewall rule
for that ip predates the setup. -/
theorem setup_failure_rollback (env : NetEnv) (st : NetState)
    (name ip : Name) (ports : List Nat) (k : Nat)
    (hfw : fwMentions st ip = false) :
    netClean (cleanup_container_networking env
      (setupPrefix name ip ports k st) name) name ip := by
  obtain ⟨hsh, hma, hsa⟩ :=
    cleanup_fields env (setupPrefix name ip ports k st) name
  refine ⟨?_, ?_, ?_, ?_⟩
  · unfold sharedHas
    rw [hsh]
    exact shared_remove_clean _ name
  · unfold machineHas
    rw [hma]
    exact machine_remove_clean _ name
  · unfold fwMentions
    cases Nat.eq_zero_or_pos k with
    | inl hk0 =>
      subst hk0
      have hpre : setupPrefix name ip ports 0 st = st := rfl
      rcases cleanup_firewall_cases env (setupPrefix name ip ports 0 st) name with
        hcf | ⟨ip0, hcf⟩
      · rw [hcf, hpre]
        exact hfw
      · rw [hcf, hpre]
        exact any_false_filter _ _ _ hfw
    | inr hk1 =>
      rw [cleanup_firewall_of_saved env _ name ip
        (setupPrefix_saved name ip ports k st hk1)]
      exact any_filter_not _ _
  · unfold savedHas
    rw [hsa, slookup_filter_ne]
    rfl

/-- Witness for claim C4 at a concrete input: failure after step 2 of
the setup of web, then cleanup, leaves the clean post-state. -/
theorem setup_failure_rollback_witness :
    netClean (cleanup_container_networking c4Env
      (setupPrefix "web".data "10.0.3.11".data [8080] 2 c4St) "web".data)
      "web".data "10.0.3.11".data :=
  setup_failure_rollback c4Env c4St "web".data "10.0.3.11".data [8080] 2
    (by rfl)

/-- Claim C7 (counterexample): LXCCompose.update_hosts_file with the
add action mutates the shared hosts file by appending a single entry
line to the existing file, an incremental in-place edit. -/
theorem update_hosts_file_add_appends :
    (update_hosts_file_add_ops (some "127.0.0.1\tlocalhost\n".data)
        "web".data "10.0.3.11".data).any FileOp.isAppend = true := by
  decide

/-- Claim C7 (amended): the HostsManager hosts-file writes and the two
JSON registry writes each build the complete new content in memory and
issue a single whole-file replace; but LXCCompose.update_hosts_file
performs its add as a single-line append to the shared hosts file (its
remove action does build and replace). -/
theorem registry_writes_build_then_replace :
    (∀ b m a : List Line,
        write_hosts_ops b m a = [FileOp.replace (write_hosts b m a)]) ∧
    (∀ d : AllocState, save_allocations_ops d = [FileOp.replace d]) ∧
    (∀ f : List Forward, save_config_ops f = [FileOp.replace f]) ∧
    (∀ (sh : Option (List Char)) (n i : Name),
        (update_hosts_file_add_ops sh n i).all FileOp.isAppend = true) ∧
    (∀ (sh : Option (List Char)) (n : Name),
        (update_hosts_file_remove_ops sh n).all
          (fun op => ! FileOp.isAppend op) = true) := by
  refine ⟨fun b m a => rfl, fun d => rfl, fun f => rfl, ?_, ?_⟩
  · intro sh n i
    unfold update_hosts_file_add_ops
    simp
    intro x h1 h2 h3
    subst h3
    rfl
  · intro sh n
    cases sh with
    | none => rfl
    | some c => rfl

/-- Claim C8: allocate_ip is idempotent.  A name already present in the
allocation map gets its existing suffix back with the state unchanged,
and a second allocate_ip immediately after a successful one returns the
identical suffix and leaves the allocation map and next_ip of the
post-state untouched (exactly one slot consumed). -/
theorem allocate_ip_idempotent :
    (∀ (st : AllocState) (n : Name) (s : Nat),
        alookup st.allocations n = some s →
        allocate_ip st n = Except.ok (s, st)) ∧
    (∀ (st : AllocState) (n : Name) (ip : Nat) (st' : AllocState),
        allocate_ip st n = Except.ok (ip, st') →
        allocate_ip st' n = Except.ok (ip, st')) := by
  constructor
  · intro st n s h
    simp [allocate_ip, h]
  · intro st n ip st' h
    unfold allocate_ip at h
    cases halo : alookup st.allocations n with
    | some s =>
      rw [halo] at h
      have hs : s = ip ∧ st = st' := by
        simpa using h
      obtain ⟨hs1, hs2⟩ := hs
      subst hs1; subst hs2
      simp [allocate_ip, halo]
    | none =>
      rw [halo] at h
      cases hscan : scanIP st.reserved (st.allocations.map (·.2)) st.next_ip with
      | error e => rw [hscan] at h; exact absurd h (by simp)
      | ok f =>
        rw [hscan] at h
        have hf : f = ip ∧
            ({ next_ip := f + 1
               reserved := st.reserved
               allocations := st.allocations ++ [(n, f)] } : AllocState) = st' := by
          simpa using h
        obtain ⟨hf1, hf2⟩ := hf
        subst hf1
        have hlook : alookup st'.allocations n = some f := by
          rw [← hf2]
          exact alookup_append_self st.allocations n f halo
        simp [allocate_ip, hlook]

/-- Witness for claim C8 at a concrete input: the registry created with
start_from = 11 allocates suffix 11 to web, and a second allocate call
returns the same suffix and the same state. -/
theorem pairwise_filter_sub (R : Forward → Forward → Prop)
    (l : List Forward) (p : Forward → Bool) (h : List.Pairwise R l) :
    List.Pairwise R (l.filter p) :=
  List.Pairwise.sublist (List.filter_sublist l) h

/-- Claim C5: the host port and protocol pair is unique across the
forward registry; add_forward and remove_forward both preserve the
invariant, and in the scenario of the spec the second add of host port
8080/tcp fails and leaves exactly one 8080/tcp rule, owned by web. -/
theorem forward_pair_unique :
    (∀ (env : PMEnv) (fwds : List Forward) (hp : Nat) (name : String)
        (cp : Nat) (proto desc : String),
        UniquePairs fwds →
        UniquePairs (add_forward env fwds hp name cp proto desc).2) ∧
    (∀ (fwds : List Forward) (hp : Nat) (proto : String),
        UniquePairs fwds →
        UniquePairs (remove_forward fwds hp proto).2) ∧
    ((add_forward pmDemoEnv [] 8080 "web" 80 "tcp" "").1 = true ∧
      (add_forward pmDemoEnv
          (add_forward pmDemoEnv [] 8080 "web" 80 "tcp" "").2
          8080 "api" 80 "tcp" "").1 = false ∧
      ((add_forward pmDemoEnv
          (add_forward pmDemoEnv [] 8080 "web" 80 "tcp" "").2
          8080 "api" 80 "tcp" "").2.filter (fun f =>
            decide (f.host_port = 8080) && decide (f.protocol = "tcp"))).map
        (·.container_name) = ["web"]) := by
  refine ⟨?_, ?_, ?_, ?_, ?_⟩
  · intro env fwds hp name cp proto desc h
    unfold add_forward
    cases pm_get_container_ip env.containers name with
    | none => exact h
    | some cip =>
      cases hc : fwds.any (fun f =>
          decide (f.host_port = hp) && decide (f.protocol = proto)) with
      | true =>
        simp only [hc, if_true]
        exact h
      | false =>
        cases hok : env.iptablesOk with
        | false =>
          simp only [hc, hok, Bool.false_eq_true, if_false]
          exact h
        | true =>
          simp only [hc, hok, Bool.false_eq_true, if_false, if_true]
          rw [UniquePairs, List.pairwise_append]
          refine ⟨h, List.pairwise_singleton _ _, ?_⟩
          intro x hx y hy
          have hxp : ¬ (decide (x.host_port = hp) && decide (x.protocol = proto)) = true := by
            intro hcon
            have : fwds.any (fun f =>
                decide (f.host_port = hp) && decide (f.protocol = proto)) = true :=
              List.any_eq_true.mpr ⟨x, hx, hcon⟩
            rw [hc] at this
            exact absurd this (by simp)
          simp only [List.mem_singleton] at hy
          subst hy
          intro hcon2
          apply hxp
          simp [hcon2.1, hcon2.2]
  · intro fwds hp proto h
    unfold remove_forward
    cases fwds.find? (fun f =>
        decide (f.host_port = hp) && decide (f.protocol = proto)) with
    | none => exact h
    | some r => exact pairwise_filter_sub _ fwds _ h
  · rfl
  · rfl
  · rfl

/-- Witness for claim C5 at a concrete input: the registry after the
first successful add keeps the uniqueness invariant. -/
theorem forward_pair_unique_witness :
    UniquePairs (add_forward pmDemoEnv [] 8080 "web" 80 "tcp" "").2 :=
  forward_pair_unique.1 pmDemoEnv [] 8080 "web" 80 "tcp" ""
    (List.Pairwise.nil)

theorem firstSubnetIP_starts (net : List (String × List PMAddr)) (ip : String)
    (h : firstSubnetIP net = some ip) : pyStartsWith ip "10.0.3." = true := by
  induction net with
  | nil => simp [firstSubnetIP] at h
  | cons p rest ih =>
    obtain ⟨iface, addrs⟩ := p
    unfold firstSubnetIP at h
    by_cases hl : iface = "lo"
    · rw [if_pos hl] at h
      exact ih h
    · rw [if_neg hl] at h
      cases hf : addrs.find? (fun a =>
          decide (a.family = "inet") && pyStartsWith a.address "10.0.3.") with
      | none => rw [hf] at h; exact ih h
      | some a =>
        rw [hf] at h
        have hp := List.find?_some hf
        simp only [Bool.and_eq_true] at hp
        have ha : ip = a.address := by
          simpa using h.symm
        subst ha
        exact hp.2

theorem firstSubnetIP_none (net : List (String × List PMAddr))
    (h : ∀ p ∈ net, ∀ a ∈ p.2, pyStartsWith a.address "10.0.3." = false) :
    firstSubnetIP net = none := by
  induction net with
  | nil => rfl
  | cons p rest ih =>
    obtain ⟨iface, addrs⟩ := p
    unfold firstSubnetIP
    have hrest : ∀ p ∈ rest, ∀ a ∈ p.2, pyStartsWith a.address "10.0.3." = false :=
      fun q hq => h q (List.mem_cons_of_mem _ hq)
    by_cases hl : iface = "lo"
    · rw [if_pos hl]
      exact ih hrest
    · rw [if_neg hl]
      have hfind : addrs.find? (fun a =>
          decide (a.family = "inet") && pyStartsWith a.address "10.0.3.") = none := by
        rw [List.find?_eq_none]
        intro a ha
        have := h (iface, addrs) (List.mem_cons_self _ _) a ha
        simp [this]
      rw [hfind]
      exact ih hrest

/-- Claim C10: add_forward succeeds only for a container the runtime
reports as Running with an address on the 10.0.3. subnet; when the ip
resolution fails (container absent, stopped, or without any address on
that subnet) the add reports failure and the registry is unchanged, and
a found container all of whose addresses lie outside the prefix
resolves to no ip at all. -/
theorem add_forward_requires_subnet_ip :
    (∀ (cs : List PMContainer) (name ip : String),
        pm_get_container_ip cs name = some ip →
        (∃ c, cs.find? (fun c => decide (c.name = name)) = some c ∧
            c.status = "Running") ∧
          pyStartsWith ip "10.0.3." = true) ∧
    (∀ (env : PMEnv) (fwds : List Forward) (hp : Nat) (name : String)
        (cp : Nat) (proto desc : String),
        pm_get_container_ip env.containers name = none →
        add_forward env fwds hp name cp proto desc = (false, fwds)) ∧
    (∀ (cs : List PMContainer) (name : String) (c : PMContainer),
        cs.find? (fun c => decide (c.name = name)) = some c →
        (∀ p ∈ c.network, ∀ a ∈ p.2, pyStartsWith a.address "10.0.3." = false) →
        pm_get_container_ip cs name = none) := by
  refine ⟨?_, ?_, ?_⟩
  · intro cs name ip h
    unfold pm_get_container_ip at h
    cases hf : cs.find? (fun c => decide (c.name = name)) with
    | none => rw [hf] at h; exact absurd h (by simp)
    | some c =>
      rw [hf] at h
      dsimp only at h
      by_cases hs : c.status ≠ "Running"
      · rw [if_pos hs] at h; exact absurd h (by simp)
      · rw [if_neg hs] at h
        push_neg at hs
        exact ⟨⟨c, rfl, hs⟩, firstSubnetIP_starts c.network ip h⟩
  · intro env fwds hp name cp proto desc h
    unfold add_forward
    rw [h]
  · intro cs name c hf hout
    unfold pm_get_container_ip
    rw [hf]
    dsimp only
    by_cases hs : c.status ≠ "Running"
    · rw [if_pos hs]
    · rw [if_neg hs]
      exact firstSubnetIP_none c.network hout

/-- Witness for claim C10 at a concrete input: a runtime where the
container has only addresses outside the subnet, so its ip does not
resolve and add_forward on it fails and leaves the registry unchanged. -/
theorem add_forward_requires_subnet_ip_witness :
    add_forward
        { containers :=
            [{ name := "ext"
               status := "Running"
               network := [("eth0", [{ family := "inet", address := "192.168.1.5" }])] }]
          iptablesOk := true }
        [] 8080 "ext" 80 "tcp" "" = (false, []) :=
  add_forward_requires_subnet_ip.2.1
    { containers :=
        [{ name := "ext"
           status := "Running"
           network := [("eth0", [{ family := "inet", address := "192.168.1.5" }])] }]
      iptablesOk := true }
    [] 8080 "ext" 80 "tcp" "" (by rfl)

theorem allocate_ip_idempotent_witness :
    allocate_ip
        { next_ip := 12
          reserved := List.range' 1 10
          allocations := [("web".data, 11)] } "web".data =
      Except.ok (11,
        { next_ip := 12
          reserved := List.range' 1 10
          allocations := [("web".data, 11)] }) :=
  allocate_ip_idempotent.2 (initAlloc 11) "web".data 11 _ (by rfl)

end LxcCompose

